import Mathlib

/-!
Verification development for the detection-head pipeline of a two-stage
object detector (`faster_rcnn.py`): proposal selection (RoIBBox), target
assignment (RoIDelta), RoI pooling (RoIPooling) and inference decoding
(`get_valid_predictions`).

Tensors are embedded as (nested) lists over `ℚ`; batched TensorFlow
operations become explicit list computations.  The repository's `helpers`
module is not part of the sources, so the geometry kernel, NMS and
index-bookkeeping helpers are modelled from the specification (their doc
comments say so explicitly).  The transcendental functions appearing in
delta encoding/decoding (`log`, `exp`) are abstracted as parameters
`lg ex : ℚ → ℚ`; no claim below depends on their values.
-/

namespace FasterRCNN

/-- A bounding box `(y1, x1, y2, x2)` in normalized corner coordinates. -/
structure Box where
  y1 : ℚ
  x1 : ℚ
  y2 : ℚ
  x2 : ℚ
deriving DecidableEq, Repr

/-- The all-zero box used as placeholder for negative proposal slots and
as scatter fill value (`tf.zeros`, `tf.scatter_nd` default). -/
def zeroBox : Box := ⟨0, 0, 0, 0⟩

/-- A padding-sentinel box: every coordinate is `-1`. -/
def Box.isSentinel (b : Box) : Bool :=
  b.y1 = -1 && b.x1 = -1 && b.y2 = -1 && b.x2 = -1

/-- A box-regression delta `(dy, dx, dh, dw)`. -/
structure Delta where
  dy : ℚ
  dx : ℚ
  dh : ℚ
  dw : ℚ
deriving DecidableEq, Repr

/-- The all-zero delta. -/
def zeroDelta : Delta := ⟨0, 0, 0, 0⟩

/-- Total list indexing with a default value, the shape `tf.gather` takes
in this embedding (all gathers in the source use in-range indices). -/
def nth {α : Type _} (d : α) : List α → Nat → α
  | [], _ => d
  | a :: _, 0 => a
  | _ :: t, n + 1 => nth d t n

/-- Box height `y2 - y1` clamped at `0`. -/
def Box.height (b : Box) : ℚ := max 0 (b.y2 - b.y1)

/-- Box width `x2 - x1` clamped at `0`. -/
def Box.width (b : Box) : ℚ := max 0 (b.x2 - b.x1)

/-- Box area. -/
def Box.area (b : Box) : ℚ := b.height * b.width

/-- Modelled from the spec: the Geometry Kernel's pairwise
intersection-over-union (`helpers` is not among the sources).  Returns `0`
for any pair involving a padding sentinel box, and `0` when the union has
zero area. -/
def iou (a b : Box) : ℚ :=
  if a.isSentinel || b.isSentinel then 0
  else
    let ih := max 0 (min a.y2 b.y2 - max a.y1 b.y1)
    let iw := max 0 (min a.x2 b.x2 - max a.x1 b.x1)
    let inter := ih * iw
    let uni := a.area + b.area - inter
    if uni = 0 then 0 else inter / uni

/-- Clip a coordinate to the valid normalized range `[0, 1]`. -/
def clamp01 (x : ℚ) : ℚ := max 0 (min 1 x)

/-- Modelled from the spec: `helpers.get_deltas_from_bboxes` restricted to
one (reference, target) pair (§4.1 `encode`): center offsets normalized by
the reference size, log-ratio sizes, guarding division by a zero reference
height/width and the log of a non-positive ratio.  `lg` abstracts the real
logarithm. -/
def encodeDelta (lg : ℚ → ℚ) (ref target : Box) : Delta :=
  let rh := ref.y2 - ref.y1
  let rw := ref.x2 - ref.x1
  let th := target.y2 - target.y1
  let tw := target.x2 - target.x1
  let rcy := ref.y1 + rh / 2
  let rcx := ref.x1 + rw / 2
  let tcy := target.y1 + th / 2
  let tcx := target.x1 + tw / 2
  let dy := if rh = 0 then 0 else (tcy - rcy) / rh
  let dx := if rw = 0 then 0 else (tcx - rcx) / rw
  let hr := if rh = 0 then 0 else th / rh
  let wr := if rw = 0 then 0 else tw / rw
  let dh := if hr ≤ 0 then 0 else lg hr
  let dw := if wr ≤ 0 then 0 else lg wr
  ⟨dy, dx, dh, dw⟩

/-- Modelled from the spec: `helpers.get_bboxes_from_deltas` restricted to
one (reference, delta) pair (§4.1 `decode`): inverse of the encoding, with
the decoded corners clipped to `[0,1]` and clamped so `y2 ≥ y1`, `x2 ≥ x1`.
`ex` abstracts the real exponential. -/
def decodeBox (ex : ℚ → ℚ) (ref : Box) (d : Delta) : Box :=
  let rh := ref.y2 - ref.y1
  let rw := ref.x2 - ref.x1
  let rcy := ref.y1 + rh / 2
  let rcx := ref.x1 + rw / 2
  let h := rh * ex d.dh
  let w := rw * ex d.dw
  let cy := d.dy * rh + rcy
  let cx := d.dx * rw + rcx
  let ny1 := clamp01 (cy - h / 2)
  let nx1 := clamp01 (cx - w / 2)
  let ny2 := max ny1 (clamp01 (cy + h / 2))
  let nx2 := max nx1 (clamp01 (cx + w / 2))
  ⟨ny1, nx1, ny2, nx2⟩

/-- `tf.argmax` over a score row: index of the maximum value, the smallest
index on ties. -/
def argmaxIdx (l : List ℚ) : Nat :=
  (List.range l.length).foldl (fun best i => if nth 0 l best < nth 0 l i then i else best) 0

/-- Insert a scored box into a list sorted by descending score, after all
strictly-greater-or-equal scores (stable, deterministic tie-breaking). -/
def insertDesc (p : Box × ℚ) : List (Box × ℚ) → List (Box × ℚ)
  | [] => [p]
  | q :: t => if q.2 < p.2 then p :: q :: t else q :: insertDesc p t

/-- Sort scored boxes by descending score (stable insertion sort). -/
def sortDesc : List (Box × ℚ) → List (Box × ℚ)
  | [] => []
  | p :: t => insertDesc p (sortDesc t)

/-- Greedy suppression pass: walk the ranked candidates, keeping a
candidate iff fewer than `topn` boxes are kept so far and its IoU with
every kept box is at most `thr`. -/
def nmsLoop (thr : ℚ) (topn : Nat) (kept : List Box) : List (Box × ℚ) → List Box
  | [] => kept
  | c :: rest =>
    if kept.length < topn && kept.all (fun k => decide (iou k c.1 ≤ thr)) then
      nmsLoop thr topn (kept ++ [c.1]) rest
    else
      nmsLoop thr topn kept rest

/-- The surviving boxes of per-image NMS, in keep order. -/
def nmsSurvivors (thr : ℚ) (topn : Nat) (boxes : List Box) (scores : List ℚ) : List Box :=
  nmsLoop thr topn [] (sortDesc (boxes.zip scores))

/-- Modelled from the spec: `helpers.non_max_suppression` (§4.3 step 2;
`helpers` is not among the sources).  Candidates ranked by score
descending; a candidate is suppressed when its IoU with a higher-ranked
kept box exceeds the threshold; at most `topn` survivors, zero-padded to
exactly `topn` entries. -/
def non_max_suppression (thr : ℚ) (topn : Nat) (boxes : List Box) (scores : List ℚ) :
    List Box :=
  let s := nmsSurvivors thr topn boxes scores
  s ++ List.replicate (topn - s.length) zeroBox

/-- Best IoU of NMS output box `i` against a ground-truth list. -/
def bestGtIoU (nmsBoxes gtBoxes : List Box) (i : Nat) : ℚ :=
  (gtBoxes.map (fun g => iou (nth zeroBox nmsBoxes i) g)).foldr max 0

/-- Modelled from the spec: `helpers.get_selected_indices` (§4.3 steps
3–5; `helpers` is not among the sources).  Boxes whose best IoU against
the ground truth exceeds the positive threshold are positive candidates;
those below the negative threshold are negative candidates; the positive
index list is padded deterministically to exactly `total_pos` entries and
each positive slot records the index of its best-IoU ground-truth box. -/
def get_selected_indices (posThr negThr : ℚ) (nmsBoxes gtBoxes : List Box)
    (total_pos total_neg : Nat) : List Nat × List Nat × List Nat :=
  let n := nmsBoxes.length
  let posAll := (List.range n).filter (fun i => decide (posThr < bestGtIoU nmsBoxes gtBoxes i))
  let negAll := (List.range n).filter (fun i => decide (bestGtIoU nmsBoxes gtBoxes i < negThr))
  let posIdx := (posAll ++ negAll ++ List.replicate total_pos 0).take total_pos
  let negIdx := (negAll ++ List.replicate total_neg 0).take total_neg
  let gtIdx := posIdx.map
    (fun i => argmaxIdx (gtBoxes.map (fun g => iou (nth zeroBox nmsBoxes i) g)))
  (posIdx, negIdx, gtIdx)

/-- Hyper parameters consumed by the layers (`hyper_params` dictionary).
The three thresholds belong to the spec-modelled helpers. -/
structure HyperParams where
  total_pos_bboxes : Nat
  total_neg_bboxes : Nat
  nms_topn : Nat
  total_labels : Nat
  nms_iou_threshold : ℚ
  positive_threshold : ℚ
  negative_threshold : ℚ

/-- Group a flat value list into deltas of four (`tf.reshape (…, 4)`). -/
def chunk4 : List ℚ → List Delta
  | a :: b :: c :: d :: rest => ⟨a, b, c, d⟩ :: chunk4 rest
  | _ => []

/-- Image `b`'s NMS output inside `RoIBBox.call`: its slice of the
reshaped deltas is applied to its anchors (`helpers.get_bboxes_from_deltas`)
and the decoded boxes run through per-image NMS. -/
def roiImageNms (ex : ℚ → ℚ) (hp : HyperParams) (rpn_bbox_deltas rpn_labels : List ℚ)
    (anchors : List (List Box)) (total_anchors : Nat) (b : Nat) : List Box :=
  let deltas_b := chunk4 ((rpn_bbox_deltas.drop (b * (total_anchors * 4))).take (total_anchors * 4))
  let labels_b := (rpn_labels.drop (b * total_anchors)).take total_anchors
  let rpn_bboxes := List.zipWith (decodeBox ex) (nth [] anchors b) deltas_b
  non_max_suppression hp.nms_iou_threshold hp.nms_topn rpn_bboxes labels_b

/-- Image `b`'s positive/negative/ground-truth index triple inside
`RoIBBox.call`. -/
def roiImageSelected (ex : ℚ → ℚ) (hp : HyperParams) (rpn_bbox_deltas rpn_labels : List ℚ)
    (anchors gt_boxes : List (List Box)) (total_anchors : Nat) (b : Nat) :
    List Nat × List Nat × List Nat :=
  get_selected_indices hp.positive_threshold hp.negative_threshold
    (roiImageNms ex hp rpn_bbox_deltas rpn_labels anchors total_anchors b)
    (nth [] gt_boxes b) hp.total_pos_bboxes hp.total_neg_bboxes

/-- Image `b`'s proposal row inside `RoIBBox.call`: positives gathered from
the NMS output by the selected indices (`tf.gather`), then
`total_neg_bboxes` zero boxes (`tf.zeros`), concatenated (`tf.concat`). -/
def roiImageBoxes (ex : ℚ → ℚ) (hp : HyperParams) (rpn_bbox_deltas rpn_labels : List ℚ)
    (anchors gt_boxes : List (List Box)) (total_anchors : Nat) (b : Nat) : List Box :=
  let nms := roiImageNms ex hp rpn_bbox_deltas rpn_labels anchors total_anchors b
  let sel := roiImageSelected ex hp rpn_bbox_deltas rpn_labels anchors gt_boxes total_anchors b
  sel.1.map (nth zeroBox nms) ++ List.replicate hp.total_neg_bboxes zeroBox

/-- `RoIBBox.call`: reshape the raw delta/label tensors against the anchor
count (`tf.reshape` fails fast on an element-count mismatch, modelled as
`none`), then per image decode, suppress, select and assemble the proposal
batch and the ground-truth index map. -/
def RoIBBox_call (ex : ℚ → ℚ) (hp : HyperParams) (rpn_bbox_deltas rpn_labels : List ℚ)
    (anchors gt_boxes : List (List Box)) : Option (List (List Box) × List (List Nat)) :=
  let batch_size := anchors.length
  let total_anchors := (nth [] anchors 0).length
  if rpn_bbox_deltas.length = batch_size * (total_anchors * 4) ∧
      rpn_labels.length = batch_size * total_anchors then
    some
      ((List.range batch_size).map
        (fun b => roiImageBoxes ex hp rpn_bbox_deltas rpn_labels anchors gt_boxes total_anchors b),
       (List.range batch_size).map
        (fun b =>
          (roiImageSelected ex hp rpn_bbox_deltas rpn_labels anchors gt_boxes total_anchors b).2.2))
  else
    none

/-- Modelled from the spec: `helpers.get_gt_boxes_map` (§4.4 step 1;
`helpers` is not among the sources).  Each positive slot gathers its
matched ground-truth box through the index map; the `total_neg` negative
slots get the zero box, so their regression target is the zero delta. -/
def get_gt_boxes_map (gt_boxes : List Box) (gt_box_indices : List Nat) (total_neg : Nat) :
    List Box :=
  gt_box_indices.map (nth zeroBox gt_boxes) ++ List.replicate total_neg zeroBox

/-- Label map of `RoIDelta.call`: gather the positive slots' ground-truth
labels (`tf.gather`), fill the negative slots with `total_labels - 1`
(`tf.fill`), concatenate. -/
def gt_labels_map (gt_labels : List Int) (gt_box_indices : List Nat)
    (total_neg total_labels : Nat) : List Int :=
  gt_box_indices.map (nth (-1) gt_labels) ++
    List.replicate total_neg ((total_labels : Int) - 1)

/-- One slot's row of the `tf.scatter_nd` in `RoIDelta.call` (the scatter
indices built by `helpers.get_scatter_indices_for_bboxes` pair each slot
with its assigned class): the slot's value lands in the column matching
its label, all other columns keep the zero fill. -/
def scatterRow {α : Type _} (zero v : α) (lab : Int) (total : Nat) : List α :=
  (List.range total).map (fun (c : Nat) => if lab = (c : Int) then v else zero)

/-- `RoIDelta.call` for one image: build the ground-truth box/label maps,
encode the per-slot deltas (`helpers.get_deltas_from_bboxes`), and scatter
deltas and one-hot labels into the per-class `(total_bboxes, total_labels)`
layout. -/
def RoIDelta_image (lg : ℚ → ℚ) (hp : HyperParams) (roi_bboxes gt_boxes : List Box)
    (gt_labels : List Int) (gt_box_indices : List Nat) :
    List (List Delta) × List (List Int) :=
  let total_bboxes := hp.total_pos_bboxes + hp.total_neg_bboxes
  let gbm := get_gt_boxes_map gt_boxes gt_box_indices hp.total_neg_bboxes
  let glm := gt_labels_map gt_labels gt_box_indices hp.total_neg_bboxes hp.total_labels
  let roi_bbox_deltas := List.zipWith (encodeDelta lg) roi_bboxes gbm
  ((List.range total_bboxes).map
    (fun s => scatterRow zeroDelta (nth zeroDelta roi_bbox_deltas s) (nth (-1) glm s)
      hp.total_labels),
   (List.range total_bboxes).map
    (fun s => scatterRow (0 : Int) 1 (nth (-1) glm s) hp.total_labels))

/-- Arg-max class per proposal (`tf.argmax(frcnn_label_pred, 2)`). -/
def pred_labels_map (frcnn_label_pred : List (List ℚ)) : List Nat :=
  frcnn_label_pred.map argmaxIdx

/-- `tf.where(tf.not_equal(pred_labels_map, total_labels-1))`: indices of
the proposals whose predicted class is not the background class. -/
def valid_label_indices (frcnn_label_pred : List (List ℚ)) (total_labels : Nat) : List Nat :=
  (List.range frcnn_label_pred.length).filter
    (fun i => decide (nth 0 (pred_labels_map frcnn_label_pred) i ≠ total_labels - 1))

/-- One survivor's row of the `tf.scatter_nd` in `get_valid_predictions`:
its proposal box lands in the column of its predicted class, all other
columns keep the zero box. -/
def scatterRowN {α : Type _} (zero v : α) (lab total : Nat) : List α :=
  (List.range total).map (fun c => if c = lab then v else zero)

/-- The decoded per-class box rows of `get_valid_predictions`: gather the
survivors' proposal boxes, delta rows (reshaped into deltas of four) and
predicted classes, scatter each survivor's box into its predicted class
column (`tf.scatter_nd`), and decode every class column against its delta
slice (`helpers.get_bboxes_from_deltas`). -/
def valid_pred_bboxes (ex : ℚ → ℚ) (roi_bboxes : List Box)
    (frcnn_delta_pred frcnn_label_pred : List (List ℚ)) (total_labels : Nat) :
    List (List Box) :=
  let valid := valid_label_indices frcnn_label_pred total_labels
  let valid_roi_bboxes := valid.map (nth zeroBox roi_bboxes)
  let valid_deltas := valid.map (fun i => chunk4 (nth [] frcnn_delta_pred i))
  let valid_labels_map := valid.map (nth 0 (pred_labels_map frcnn_label_pred))
  let scattered_rois := (List.range valid.length).map
    (fun j => scatterRowN zeroBox (nth zeroBox valid_roi_bboxes j) (nth 0 valid_labels_map j)
      total_labels)
  (List.range valid.length).map
    (fun j => List.zipWith (decodeBox ex) (nth [] scattered_rois j) (nth [] valid_deltas j))

/-- The survivors' full score rows (`tf.gather_nd(frcnn_label_pred, …)`). -/
def valid_labels_out (frcnn_label_pred : List (List ℚ)) (total_labels : Nat) :
    List (List ℚ) :=
  (valid_label_indices frcnn_label_pred total_labels).map (nth [] frcnn_label_pred)

/-- `get_valid_predictions` (batch size 1): drop background-predicted
proposals, decode the survivors per class, and return decoded boxes plus
the survivors' full score rows, each under a leading singleton batch
dimension (`tf.expand_dims`). -/
def get_valid_predictions (ex : ℚ → ℚ) (roi_bboxes : List Box)
    (frcnn_delta_pred frcnn_label_pred : List (List ℚ)) (total_labels : Nat) :
    List (List (List Box)) × List (List (List ℚ)) :=
  ([valid_pred_bboxes ex roi_bboxes frcnn_delta_pred frcnn_label_pred total_labels],
   [valid_labels_out frcnn_label_pred total_labels])

/-- Modelled from the spec: `helpers.get_tiled_indices` (`helpers` is not
among the sources) — the flat batch-index column used by the pooler: the
entry at flat position `b * total_bboxes + i` is `b`. -/
def get_tiled_indices (batch_size total_bboxes : Nat) : List Nat :=
  ((List.range batch_size).map (fun b => List.replicate total_bboxes b)).flatten

/-- `tf.image.crop_and_resize`: output slice `j` is the crop of feature
map `box_indices[j]` by `boxes[j]`; `cr` abstracts the single-image
crop-and-bilinear-resize kernel. -/
def crop_and_resize {φ π : Type _} (cr : φ → Box → π) (dflt : φ) (feature_maps : List φ)
    (boxes : List Box) (box_indices : List Nat) : List π :=
  (boxes.zip box_indices).map (fun p => cr (nth dflt feature_maps p.2) p.1)

/-- `RoIPooling.call`: flatten the per-image proposal rows, pair each flat
box with its image's batch index, run the single batched crop, and reshape
back to `(batch, total_bboxes, …)`. -/
def RoIPooling_call {φ π : Type _} (cr : φ → Box → π) (dflt : φ) (feature_map : List φ)
    (roi_bboxes : List (List Box)) (total_bboxes : Nat) : List (List π) :=
  let batch_size := roi_bboxes.length
  let pooling_bbox_indices := get_tiled_indices batch_size total_bboxes
  let pooling_bboxes := roi_bboxes.flatten
  let pooling_feature_map :=
    crop_and_resize cr dflt feature_map pooling_bboxes pooling_bbox_indices
  (List.range batch_size).map
    (fun b => (pooling_feature_map.drop (b * total_bboxes)).take total_bboxes)

/-- A tensor value tagged with the ids of the differentiable network
inputs its gradient would flow back to; each operation propagates the
union of its inputs' sources. -/
structure Traced (α : Type _) where
  val : α
  gradSources : List Nat

/-- `tf.stop_gradient`: same value, gradient flow cut. -/
def stop_gradient {α : Type _} (t : Traced α) : Traced α := ⟨t.val, []⟩

/-- Gradient bookkeeping of `RoIBBox.call`: the body combines all four
inputs, so before the final line both result tensors conservatively carry
every input's gradient sources; the return wraps both in
`tf.stop_gradient`. -/
def RoIBBox_call_traced (ex : ℚ → ℚ) (hp : HyperParams) (tdeltas tlabels : Traced (List ℚ))
    (tanchors tgt_boxes : Traced (List (List Box))) :
    Traced (Option (List (List Box))) × Traced (Option (List (List Nat))) :=
  let r := RoIBBox_call ex hp tdeltas.val tlabels.val tanchors.val tgt_boxes.val
  let srcs := tdeltas.gradSources ++ tlabels.gradSources ++ tanchors.gradSources ++
    tgt_boxes.gradSources
  (stop_gradient ⟨r.map Prod.fst, srcs⟩, stop_gradient ⟨r.map Prod.snd, srcs⟩)

/-- Gradient bookkeeping of `RoIDelta.call` (one image): both result
tensors carry every input's gradient sources until the return wraps them
in `tf.stop_gradient`. -/
def RoIDelta_call_traced (lg : ℚ → ℚ) (hp : HyperParams) (troi tgt_boxes : Traced (List Box))
    (tgt_labels : Traced (List Int)) (tgt_idx : Traced (List Nat)) :
    Traced (List (List Delta)) × Traced (List (List Int)) :=
  let r := RoIDelta_image lg hp troi.val tgt_boxes.val tgt_labels.val tgt_idx.val
  let srcs := troi.gradSources ++ tgt_boxes.gradSources ++ tgt_labels.gradSources ++
    tgt_idx.gradSources
  (stop_gradient ⟨r.1, srcs⟩, stop_gradient ⟨r.2, srcs⟩)

/-- Concrete abstract-exponential used in witnesses. -/
def exW : ℚ → ℚ := fun _ => 1

/-- Concrete abstract-logarithm used in witnesses. -/
def lgW : ℚ → ℚ := fun _ => 0

/-- Concrete hyper parameters used in witnesses: 2 positive and 2 negative
slots, `nms_topn = 3`, 5 labels (4 classes + background). -/
def hpW : HyperParams := ⟨2, 2, 3, 5, 1, 0, 1⟩

/-- A concrete box. -/
def boxA : Box := ⟨0, 0, 1, 1⟩

/-- A concrete box distinct from `boxA`. -/
def boxB : Box := ⟨1, 1, 2, 2⟩

/-- Witness anchor set: one image with two anchors. -/
def anchorsW : List (List Box) := [[boxA, boxB]]

/-- Witness ground-truth boxes: one image with one box. -/
def gtbW : List (List Box) := [[boxA]]

/-- Witness flat rpn deltas: 1 image × 2 anchors × 4 values. -/
def rpnDeltasW : List ℚ := List.replicate 8 0

/-- Witness flat rpn scores: 1 image × 2 anchors. -/
def rpnLabelsW : List ℚ := List.replicate 2 0

/-- Witness proposal batch for the Target Assigner: two real positive
boxes followed by two zero negative slots. -/
def roiW : List Box := [boxA, boxB, zeroBox, zeroBox]

/-- Witness per-image ground-truth box list for the Target Assigner. -/
def gtbW2 : List Box := [boxA]

/-- Witness ground-truth labels: the single ground-truth box has class 3. -/
def gtlW : List Int := [3]

/-- Witness ground-truth index map: both positive slots matched to
ground-truth box 0. -/
def gtiW : List Nat := [0, 0]

/-- Witness score rows: proposal 0 predicts background (class 4),
proposal 1 predicts class 0. -/
def labelPredW : List (List ℚ) := [[0, 0, 0, 0, 9], [9, 0, 0, 0, 1]]

/-- Witness delta predictions: all-zero rows of length `5 * 4`. -/
def deltaPredW : List (List ℚ) := [List.replicate 20 0, List.replicate 20 0]

/-- Witness score rows where every proposal predicts background. -/
def allBgPredW : List (List ℚ) := [[0, 0, 0, 0, 9], [1, 1, 1, 1, 2]]

/-- Witness single-image crop kernel for the pooler: returns the feature
value and ignores the box. -/
def crW : ℚ → Box → ℚ := fun f _ => f

/-- Witness feature map batch: one scalar per image. -/
def fmW : List ℚ := [10, 20]

/-- A second witness feature map batch agreeing with `fmW` at image 1. -/
def fm2W : List ℚ := [99, 20]

/-- Witness proposal rows for the pooler: two images, two boxes each. -/
def roiPW : List (List Box) := [[boxA, boxB], [boxB, boxA]]

/-- The flat proposal index the decoder's survivor `j` came from
(`tf.where` output row `j`). -/
def decoderValidIdx (frcnn_label_pred : List (List ℚ)) (total_labels j : Nat) : Nat :=
  nth 0 (valid_label_indices frcnn_label_pred total_labels) j

/-- Survivor `j`'s predicted class (`valid_labels_map` entry `j`). -/
def decoderPredClass (frcnn_label_pred : List (List ℚ)) (total_labels j : Nat) : Nat :=
  argmaxIdx (nth [] frcnn_label_pred (decoderValidIdx frcnn_label_pred total_labels j))

theorem nth_nil {α : Type _} (d : α) (n : Nat) : nth d [] n = d := rfl

theorem nth_cons_zero {α : Type _} (d a : α) (t : List α) : nth d (a :: t) 0 = a := rfl

theorem nth_cons_succ {α : Type _} (d a : α) (t : List α) (n : Nat) :
    nth d (a :: t) (n + 1) = nth d t n := rfl

theorem nth_append_left {α : Type _} (d : α) (l r : List α) (n : Nat) (h : n < l.length) :
    nth d (l ++ r) n = nth d l n := by
  induction l generalizing n with
  | nil => simp at h
  | cons a t ih =>
    cases n with
    | zero => rfl
    | succ m =>
      simp only [List.cons_append, nth_cons_succ]
      exact ih m (by simpa using Nat.lt_of_succ_lt_succ h)

theorem nth_append_right {α : Type _} (d : α) (l r : List α) (n : Nat) (h : l.length ≤ n) :
    nth d (l ++ r) n = nth d r (n - l.length) := by
  induction l generalizing n with
  | nil => simp
  | cons a t ih =>
    cases n with
    | zero => simp at h
    | succ m =>
      simp only [List.cons_append, nth_cons_succ, List.length_cons]
      have := ih m (Nat.le_of_succ_le_succ h)
      simpa [Nat.succ_sub_succ] using this

theorem nth_replicate {α : Type _} (d a : α) (k n : Nat) (h : n < k) :
    nth d (List.replicate k a) n = a := by
  induction k generalizing n with
  | zero => omega
  | succ m ih =>
    cases n with
    | zero => rfl
    | succ j =>
      simp only [List.replicate_succ, nth_cons_succ]
      exact ih j (by omega)

theorem nth_map {α β : Type _} (d : α) (e : β) (f : α → β) (l : List α) (n : Nat)
    (h : n < l.length) : nth e (l.map f) n = f (nth d l n) := by
  induction l generalizing n with
  | nil => simp at h
  | cons a t ih =>
    cases n with
    | zero => rfl
    | succ m =>
      simp only [List.map_cons, nth_cons_succ]
      exact ih m (by simpa using Nat.lt_of_succ_lt_succ h)

theorem nth_range (d k n : Nat) (h : n < k) : nth d (List.range k) n = n := by
  induction k generalizing n d with
  | zero => omega
  | succ m ih =>
    rw [List.range_succ]
    rcases Nat.lt_or_ge n m with hlt | hge
    · rw [nth_append_left d _ _ n (by simpa using hlt)]
      exact ih d n hlt
    · have hn : n = m := by omega
      subst hn
      rw [nth_append_right d _ _ n (by simp)]
      simp [nth]

theorem nth_zipWith {α β γ : Type _} (da : α) (db : β) (dc : γ) (f : α → β → γ)
    (l : List α) (r : List β) (n : Nat) (hl : n < l.length) (hr : n < r.length) :
    nth dc (List.zipWith f l r) n = f (nth da l n) (nth db r n) := by
  induction l generalizing r n with
  | nil => simp at hl
  | cons a t ih =>
    cases r with
    | nil => simp at hr
    | cons b s =>
      cases n with
      | zero => rfl
      | succ m =>
        simp only [List.zipWith_cons_cons, nth_cons_succ]
        exact ih s m (by simpa using Nat.lt_of_succ_lt_succ hl)
          (by simpa using Nat.lt_of_succ_lt_succ hr)

theorem nth_eq_get {α : Type _} (d : α) (l : List α) (n : Nat) (h : n < l.length) :
    nth d l n = l.get ⟨n, h⟩ := by
  induction l generalizing n with
  | nil => simp at h
  | cons a t ih =>
    cases n with
    | zero => rfl
    | succ m => exact ih m (by simpa using Nat.lt_of_succ_lt_succ h)

theorem nth_mem {α : Type _} (d : α) (l : List α) (n : Nat) (h : n < l.length) :
    nth d l n ∈ l := by
  rw [nth_eq_get d l n h]
  exact l.get_mem n h

theorem encodeDelta_zero (lg : ℚ → ℚ) : encodeDelta lg zeroBox zeroBox = zeroDelta := by
  simp [encodeDelta, zeroBox, zeroDelta]

theorem decodeBox_zero (ex : ℚ → ℚ) (d : Delta) : decodeBox ex zeroBox d = zeroBox := by
  simp [decodeBox, zeroBox, clamp01]

theorem get_selected_indices_fst_length (posThr negThr : ℚ) (nmsBoxes gtBoxes : List Box)
    (total_pos total_neg : Nat) :
    (get_selected_indices posThr negThr nmsBoxes gtBoxes total_pos total_neg).1.length =
      total_pos := by
  simp only [get_selected_indices, List.length_take, List.length_append,
    List.length_replicate]
  omega

theorem get_selected_indices_gt_length (posThr negThr : ℚ) (nmsBoxes gtBoxes : List Box)
    (total_pos total_neg : Nat) :
    (get_selected_indices posThr negThr nmsBoxes gtBoxes total_pos total_neg).2.2.length =
      total_pos := by
  simp only [get_selected_indices, List.length_map, List.length_take, List.length_append,
    List.length_replicate]
  omega

theorem nth_take {α : Type _} (d : α) (l : List α) (k n : Nat) (h : n < k) :
    nth d (l.take k) n = nth d l n := by
  induction l generalizing k n with
  | nil => simp
  | cons a t ih =>
    cases k with
    | zero => omega
    | succ m =>
      cases n with
      | zero => rfl
      | succ j =>
        simp only [List.take_succ_cons, nth_cons_succ]
        exact ih m j (by omega)

theorem nth_drop {α : Type _} (d : α) (l : List α) (m n : Nat) :
    nth d (l.drop m) n = nth d l (m + n) := by
  induction m generalizing l with
  | zero => simp
  | succ k ih =>
    cases l with
    | nil => simp [nth_nil]
    | cons a t =>
      simp only [List.drop_succ_cons]
      rw [ih t]
      have : k + 1 + n = (k + n) + 1 := by omega
      rw [this, nth_cons_succ]

theorem length_flatten_rect {α : Type _} (rows : List (List α)) (t : Nat)
    (h : ∀ r ∈ rows, r.length = t) : rows.flatten.length = rows.length * t := by
  induction rows with
  | nil => simp
  | cons r rs ih =>
    simp only [List.flatten_cons, List.length_append, List.length_cons]
    rw [h r (by simp), ih (fun r hr => h r (by simp [hr]))]
    ring

theorem nth_flatten {α : Type _} (d : α) (rows : List (List α)) (t b i : Nat)
    (hrect : ∀ r ∈ rows, r.length = t) (hb : b < rows.length) (hi : i < t) :
    nth d rows.flatten (b * t + i) = nth d (nth [] rows b) i := by
  induction rows generalizing b with
  | nil => simp at hb
  | cons r rs ih =>
    cases b with
    | zero =>
      simp only [List.flatten_cons, Nat.zero_mul, Nat.zero_add, nth_cons_zero]
      exact nth_append_left d r rs.flatten i (by rw [hrect r (by simp)]; exact hi)
    | succ m =>
      simp only [List.flatten_cons, nth_cons_succ]
      have hlen : r.length = t := hrect r (by simp)
      have hge : r.length ≤ (m + 1) * t + i := by
        rw [hlen]
        have : t ≤ (m + 1) * t := Nat.le_mul_of_pos_left t (by omega)
        omega
      rw [nth_append_right d r rs.flatten _ hge]
      have harith : (m + 1) * t + i - r.length = m * t + i := by
        rw [hlen, Nat.succ_mul]
        omega
      rw [harith]
      exact ih m (fun x hx => hrect x (by simp [hx])) (by simpa using Nat.lt_of_succ_lt_succ hb)

theorem get_tiled_indices_spec (batch_size total_bboxes b i : Nat)
    (hb : b < batch_size) (hi : i < total_bboxes) :
    nth 0 (get_tiled_indices batch_size total_bboxes) (b * total_bboxes + i) = b := by
  unfold get_tiled_indices
  rw [nth_flatten 0 _ total_bboxes b i]
  · rw [nth_map 0 [] _ (List.range batch_size) b (by simpa using hb),
      nth_range 0 batch_size b hb]
    exact nth_replicate 0 b total_bboxes i hi
  · intro r hr
    rcases List.mem_map.mp hr with ⟨x, _, rfl⟩
    simp
  · simpa using hb
  · exact hi

theorem nth_zip {α β : Type _} (da : α) (db : β) (l : List α) (r : List β) (n : Nat)
    (hl : n < l.length) (hr : n < r.length) :
    nth (da, db) (l.zip r) n = (nth da l n, nth db r n) :=
  nth_zipWith da db (da, db) Prod.mk l r n hl hr

theorem chunk4_length (l : List ℚ) : (chunk4 l).length = l.length / 4 := by
  induction l using chunk4.induct with
  | case1 a b c d rest ih =>
    simp only [chunk4, List.length_cons]
    rw [ih]
    omega
  | case2 l h =>
    have hc : chunk4 l = [] := by
      cases l with
      | nil => rfl
      | cons a t =>
        cases t with
        | nil => rfl
        | cons b t2 =>
          cases t2 with
          | nil => rfl
          | cons c t3 =>
            cases t3 with
            | nil => rfl
            | cons d rest => exact absurd rfl (h a b c d rest)
    have hl : l.length < 4 := by
      by_contra hge
      push_neg at hge
      match l, hge with
      | a :: b :: c :: d :: rest, _ => exact h a b c d rest rfl
    rw [hc]
    simp only [List.length_nil]
    omega

theorem argmaxIdx_aux_lt (l : List ℚ) (idxs : List Nat) (acc : Nat)
    (hidxs : ∀ x ∈ idxs, x < l.length) (hacc : acc < l.length) :
    idxs.foldl (fun best i => if nth 0 l best < nth 0 l i then i else best) acc < l.length := by
  induction idxs generalizing acc with
  | nil => exact hacc
  | cons j t ih =>
    simp only [List.foldl_cons]
    apply ih
    · intro x hx
      exact hidxs x (by simp [hx])
    · by_cases h : nth 0 l acc < nth 0 l j
      · simpa [h] using hidxs j (by simp)
      · simpa [h] using hacc

theorem argmaxIdx_lt (l : List ℚ) (h : 0 < l.length) : argmaxIdx l < l.length := by
  unfold argmaxIdx
  exact argmaxIdx_aux_lt l (List.range l.length) 0 (fun x hx => List.mem_range.mp hx) h

theorem nmsLoop_invariant (thr : ℚ) (topn : Nat) (cands : List (Box × ℚ)) (kept : List Box)
    (hlen : kept.length ≤ topn) (hpw : kept.Pairwise (fun a b => iou a b ≤ thr)) :
    (nmsLoop thr topn kept cands).length ≤ topn ∧
      (nmsLoop thr topn kept cands).Pairwise (fun a b => iou a b ≤ thr) := by
  induction cands generalizing kept with
  | nil => exact ⟨hlen, hpw⟩
  | cons c rest ih =>
    simp only [nmsLoop]
    by_cases h : (kept.length < topn && kept.all fun k => decide (iou k c.1 ≤ thr)) = true
    · rw [if_pos h]
      rw [Bool.and_eq_true] at h
      apply ih
      · have : kept.length < topn := of_decide_eq_true h.1
        simp only [List.length_append, List.length_cons, List.length_nil]
        omega
      · rw [List.pairwise_append]
        refine ⟨hpw, List.pairwise_singleton _ _, ?_⟩
        intro a ha b hb
        have hb1 : b = c.1 := by simpa using hb
        subst hb1
        have := List.all_eq_true.mp h.2 a ha
        exact of_decide_eq_true this
    · rw [if_neg h]
      exact ih kept hlen hpw

theorem roiImageSelected_fst_length (ex : ℚ → ℚ) (hp : HyperParams)
    (rpn_bbox_deltas rpn_labels : List ℚ) (anchors gt_boxes : List (List Box))
    (total_anchors b : Nat) :
    (roiImageSelected ex hp rpn_bbox_deltas rpn_labels anchors gt_boxes total_anchors b).1.length =
      hp.total_pos_bboxes := by
  unfold roiImageSelected
  exact get_selected_indices_fst_length _ _ _ _ _ _

theorem nth_map_range {β : Type _} (e : β) (f : Nat → β) (k n : Nat) (h : n < k) :
    nth e ((List.range k).map f) n = f n := by
  rw [nth_map 0 e f (List.range k) n (by simpa using h), nth_range 0 k n h]

/-- C7: per-image NMS keeps at most `nms_topn` surviving boxes, the padded
output has exactly `nms_topn` entries (zero boxes fill the missing slots),
and no two kept boxes have IoU above the suppression threshold. -/
theorem nms_cardinality_claim (thr : ℚ) (topn : Nat) (boxes : List Box) (scores : List ℚ) :
    (nmsSurvivors thr topn boxes scores).length ≤ topn ∧
    (non_max_suppression thr topn boxes scores).length = topn ∧
    (nmsSurvivors thr topn boxes scores).Pairwise (fun a b => iou a b ≤ thr) := by
  have h := nmsLoop_invariant thr topn (sortDesc (boxes.zip scores)) [] (by simp) (by simp)
  have hs : (nmsSurvivors thr topn boxes scores).length ≤ topn := h.1
  refine ⟨hs, ?_, h.2⟩
  unfold non_max_suppression
  simp only [List.length_append, List.length_replicate]
  omega

/-- C9: when the flat rpn-delta element count disagrees with the Anchor
Set (`batch × total_anchors × 4`), the Proposal Selector's reshape fails
fast and `RoIBBox.call` produces no output. -/
theorem roiBBox_shape_mismatch_fatal (ex : ℚ → ℚ) (hp : HyperParams)
    (rpn_bbox_deltas rpn_labels : List ℚ) (anchors gt_boxes : List (List Box))
    (hmis : rpn_bbox_deltas.length ≠ anchors.length * ((nth [] anchors 0).length * 4)) :
    RoIBBox_call ex hp rpn_bbox_deltas rpn_labels anchors gt_boxes = none := by
  simp only [RoIBBox_call]
  exact if_neg (fun hand => hmis hand.1)

/-- Witness for C9: seven delta values against two anchors (eight needed)
make `RoIBBox_call` fail. -/
theorem roiBBox_shape_mismatch_fatal_w :
    RoIBBox_call exW hpW (List.replicate 7 0) rpnLabelsW anchorsW gtbW = none :=
  roiBBox_shape_mismatch_fatal exW hpW (List.replicate 7 0) rpnLabelsW anchorsW gtbW
    (by decide)

/-- C8: both outputs of the Proposal Selector and both outputs of the
Target Assigner are wrapped in `tf.stop_gradient`: whatever gradient
sources the four inputs carry, the outputs carry none, while the carried
values are exactly the untraced layer results. -/
theorem selector_assigner_gradient_blocked (ex lg : ℚ → ℚ) (hp : HyperParams)
    (tdeltas tlabels : Traced (List ℚ)) (tanchors tgt_boxes : Traced (List (List Box)))
    (troi tgb : Traced (List Box)) (tgl : Traced (List Int)) (tgi : Traced (List Nat)) :
    (RoIBBox_call_traced ex hp tdeltas tlabels tanchors tgt_boxes).1.gradSources = [] ∧
    (RoIBBox_call_traced ex hp tdeltas tlabels tanchors tgt_boxes).2.gradSources = [] ∧
    (RoIDelta_call_traced lg hp troi tgb tgl tgi).1.gradSources = [] ∧
    (RoIDelta_call_traced lg hp troi tgb tgl tgi).2.gradSources = [] ∧
    (RoIBBox_call_traced ex hp tdeltas tlabels tanchors tgt_boxes).1.val =
      (RoIBBox_call ex hp tdeltas.val tlabels.val tanchors.val tgt_boxes.val).map Prod.fst ∧
    (RoIBBox_call_traced ex hp tdeltas tlabels tanchors tgt_boxes).2.val =
      (RoIBBox_call ex hp tdeltas.val tlabels.val tanchors.val tgt_boxes.val).map Prod.snd ∧
    (RoIDelta_call_traced lg hp troi tgb tgl tgi).1.val =
      (RoIDelta_image lg hp troi.val tgb.val tgl.val tgi.val).1 ∧
    (RoIDelta_call_traced lg hp troi tgb tgl tgi).2.val =
      (RoIDelta_image lg hp troi.val tgb.val tgl.val tgi.val).2 :=
  ⟨rfl, rfl, rfl, rfl, rfl, rfl, rfl, rfl⟩

/-- C1: on every batch accepted by the shape check, `RoIBBox.call`
succeeds, and each image's Proposal Batch row has exactly
`total_pos_bboxes + total_neg_bboxes` entries: the first
`total_pos_bboxes` are gathered from that image's NMS output at the
selected positive indices and the remaining `total_neg_bboxes` are
all-zero placeholder boxes. -/
theorem roiBBox_sampling_cardinality (ex : ℚ → ℚ) (hp : HyperParams)
    (rpn_bbox_deltas rpn_labels : List ℚ) (anchors gt_boxes : List (List Box)) (b : Nat)
    (hshape : rpn_bbox_deltas.length = anchors.length * ((nth [] anchors 0).length * 4) ∧
      rpn_labels.length = anchors.length * (nth [] anchors 0).length)
    (hb : b < anchors.length) :
    (∃ rois gtIdxs, RoIBBox_call ex hp rpn_bbox_deltas rpn_labels anchors gt_boxes =
        some (rois, gtIdxs) ∧
      nth [] rois b = roiImageBoxes ex hp rpn_bbox_deltas rpn_labels anchors gt_boxes
        (nth [] anchors 0).length b) ∧
    (roiImageBoxes ex hp rpn_bbox_deltas rpn_labels anchors gt_boxes
        (nth [] anchors 0).length b).length =
      hp.total_pos_bboxes + hp.total_neg_bboxes ∧
    (∀ k, k < hp.total_pos_bboxes →
      nth zeroBox (roiImageBoxes ex hp rpn_bbox_deltas rpn_labels anchors gt_boxes
          (nth [] anchors 0).length b) k =
        nth zeroBox
          (roiImageNms ex hp rpn_bbox_deltas rpn_labels anchors (nth [] anchors 0).length b)
          (nth 0 (roiImageSelected ex hp rpn_bbox_deltas rpn_labels anchors gt_boxes
            (nth [] anchors 0).length b).1 k)) ∧
    (∀ k, hp.total_pos_bboxes ≤ k → k < hp.total_pos_bboxes + hp.total_neg_bboxes →
      nth zeroBox (roiImageBoxes ex hp rpn_bbox_deltas rpn_labels anchors gt_boxes
        (nth [] anchors 0).length b) k = zeroBox) := by
  have hsel := roiImageSelected_fst_length ex hp rpn_bbox_deltas rpn_labels anchors gt_boxes
    (nth [] anchors 0).length b
  refine ⟨?_, ?_, ?_, ?_⟩
  · refine ⟨(List.range anchors.length).map
        (fun c => roiImageBoxes ex hp rpn_bbox_deltas rpn_labels anchors gt_boxes
          (nth [] anchors 0).length c),
      (List.range anchors.length).map
        (fun c => (roiImageSelected ex hp rpn_bbox_deltas rpn_labels anchors gt_boxes
          (nth [] anchors 0).length c).2.2), ?_, ?_⟩
    · simp only [RoIBBox_call]
      rw [if_pos hshape]
    · exact nth_map_range []
        (fun c => roiImageBoxes ex hp rpn_bbox_deltas rpn_labels anchors gt_boxes
          (nth [] anchors 0).length c) anchors.length b hb
  · unfold roiImageBoxes
    simp only [List.length_append, List.length_map, List.length_replicate, hsel]
  · intro k hk
    unfold roiImageBoxes
    rw [nth_append_left _ _ _ k (by simpa [hsel] using hk)]
    exact nth_map 0 zeroBox _ _ k (by simpa [hsel] using hk)
  · intro k hk1 hk2
    unfold roiImageBoxes
    rw [nth_append_right _ _ _ k (by simpa [hsel] using hk1)]
    refine nth_replicate _ _ _ _ ?_
    simp only [List.length_map, hsel]
    omega

/-- Witness for C1 on a concrete one-image batch: the proposal row has
`2 + 2` slots and the first negative slot is the zero box. -/
theorem roiBBox_sampling_cardinality_w :
    (roiImageBoxes exW hpW rpnDeltasW rpnLabelsW anchorsW gtbW
        (nth [] anchorsW 0).length 0).length =
      hpW.total_pos_bboxes + hpW.total_neg_bboxes ∧
    nth zeroBox (roiImageBoxes exW hpW rpnDeltasW rpnLabelsW anchorsW gtbW
      (nth [] anchorsW 0).length 0) 2 = zeroBox := by
  have h := roiBBox_sampling_cardinality exW hpW rpnDeltasW rpnLabelsW anchorsW gtbW 0
    (by constructor <;> decide) (by decide)
  exact ⟨h.2.1, h.2.2.2 2 (by decide) (by decide)⟩

theorem nth_scatterRow {α : Type _} (zero v : α) (lab : Int) (total c : Nat) (hc : c < total) :
    nth zero (scatterRow zero v lab total) c = if lab = (c : Int) then v else zero := by
  unfold scatterRow
  rw [nth_map_range zero _ total c hc]

theorem nth_scatterRowN {α : Type _} (zero v : α) (lab total c : Nat) (hc : c < total) :
    nth zero (scatterRowN zero v lab total) c = if c = lab then v else zero := by
  unfold scatterRowN
  rw [nth_map_range zero _ total c hc]

theorem get_gt_boxes_map_length (gt_boxes : List Box) (gt_box_indices : List Nat)
    (total_neg : Nat) :
    (get_gt_boxes_map gt_boxes gt_box_indices total_neg).length =
      gt_box_indices.length + total_neg := by
  simp [get_gt_boxes_map]

/-- C2: in the Target Assigner's output, every proposal slot whose
assigned label is a valid class index has its classification-indicator row
equal to `1` exactly at the assigned class column and `0` elsewhere, and
its regression-delta row equal to the zero delta at every other column. -/
theorem roiDelta_scatter_exclusivity (lg : ℚ → ℚ) (hp : HyperParams)
    (roi_bboxes gt_boxes : List Box) (gt_labels : List Int) (gt_box_indices : List Nat)
    (s : Nat) (hs : s < hp.total_pos_bboxes + hp.total_neg_bboxes)
    (hlab0 : 0 ≤ nth (-1) (gt_labels_map gt_labels gt_box_indices hp.total_neg_bboxes
      hp.total_labels) s)
    (hlab1 : nth (-1) (gt_labels_map gt_labels gt_box_indices hp.total_neg_bboxes
      hp.total_labels) s < (hp.total_labels : Int)) :
    (∀ c, c < hp.total_labels →
      (nth 0 (nth [] (RoIDelta_image lg hp roi_bboxes gt_boxes gt_labels gt_box_indices).2 s)
          c ≠ 0 ↔
        (c : Int) = nth (-1) (gt_labels_map gt_labels gt_box_indices hp.total_neg_bboxes
          hp.total_labels) s)) ∧
    nth 0 (nth [] (RoIDelta_image lg hp roi_bboxes gt_boxes gt_labels gt_box_indices).2 s)
      (nth (-1) (gt_labels_map gt_labels gt_box_indices hp.total_neg_bboxes
        hp.total_labels) s).toNat = 1 ∧
    (∀ c, c < hp.total_labels →
      (c : Int) ≠ nth (-1) (gt_labels_map gt_labels gt_box_indices hp.total_neg_bboxes
        hp.total_labels) s →
      nth zeroDelta
        (nth [] (RoIDelta_image lg hp roi_bboxes gt_boxes gt_labels gt_box_indices).1 s) c =
        zeroDelta) := by
  simp only [RoIDelta_image]
  rw [nth_map_range [] _ (hp.total_pos_bboxes + hp.total_neg_bboxes) s hs,
    nth_map_range [] _ (hp.total_pos_bboxes + hp.total_neg_bboxes) s hs]
  refine ⟨?_, ?_, ?_⟩
  · intro c hc
    rw [nth_scatterRow 0 1 _ hp.total_labels c hc]
    constructor
    · intro hne
      by_contra hcne
      exact hne (by rw [if_neg (fun h => hcne h.symm)])
    · intro hceq
      rw [if_pos hceq.symm]
      decide
  · have htn : (nth (-1) (gt_labels_map gt_labels gt_box_indices hp.total_neg_bboxes
        hp.total_labels) s).toNat < hp.total_labels := by omega
    rw [nth_scatterRow 0 1 _ hp.total_labels _ htn]
    rw [if_pos (by omega)]
  · intro c hc hcne
    rw [nth_scatterRow zeroDelta _ _ hp.total_labels c hc]
    rw [if_neg (fun h => hcne h.symm)]

/-- Witness for C2 at slot 1 (a positive slot with class 3): indicator is
1 at column 3, 0 at column 0, and the delta at column 0 is the zero
delta. -/
theorem roiDelta_scatter_exclusivity_w :
    nth 0 (nth [] (RoIDelta_image lgW hpW roiW gtbW2 gtlW gtiW).2 1)
      (nth (-1) (gt_labels_map gtlW gtiW hpW.total_neg_bboxes hpW.total_labels) 1).toNat = 1 ∧
    ¬ (nth 0 (nth [] (RoIDelta_image lgW hpW roiW gtbW2 gtlW gtiW).2 1) 0 ≠ 0) ∧
    nth zeroDelta (nth [] (RoIDelta_image lgW hpW roiW gtbW2 gtlW gtiW).1 1) 0 = zeroDelta := by
  have h := roiDelta_scatter_exclusivity lgW hpW roiW gtbW2 gtlW gtiW 1
    (by decide) (by decide) (by decide)
  refine ⟨h.2.1, ?_, h.2.2 0 (by decide) (by decide)⟩
  intro hne
  exact absurd ((h.1 0 (by decide)).mp hne) (by decide)

/-- C3: negative proposal slots (the last `total_neg_bboxes`) are assigned
the background label and an all-zero delta row, while each positive slot
gathers the ground-truth box and label named by its GT Index Map entry and
its delta encodes its proposal box against that ground-truth box. -/
theorem roiDelta_target_assignment (lg : ℚ → ℚ) (hp : HyperParams)
    (roi_bboxes gt_boxes : List Box) (gt_labels : List Int) (gt_box_indices : List Nat)
    (hgti : gt_box_indices.length = hp.total_pos_bboxes)
    (hroi : roi_bboxes.length = hp.total_pos_bboxes + hp.total_neg_bboxes)
    (hnegzero : ∀ s, hp.total_pos_bboxes ≤ s → s < hp.total_pos_bboxes + hp.total_neg_bboxes →
      nth zeroBox roi_bboxes s = zeroBox) :
    (∀ s, hp.total_pos_bboxes ≤ s → s < hp.total_pos_bboxes + hp.total_neg_bboxes →
      nth (-1) (gt_labels_map gt_labels gt_box_indices hp.total_neg_bboxes
          hp.total_labels) s = (hp.total_labels : Int) - 1 ∧
      ∀ c, c < hp.total_labels →
        nth zeroDelta
          (nth [] (RoIDelta_image lg hp roi_bboxes gt_boxes gt_labels gt_box_indices).1 s)
          c = zeroDelta) ∧
    (∀ s, s < hp.total_pos_bboxes →
      nth (-1) (gt_labels_map gt_labels gt_box_indices hp.total_neg_bboxes
          hp.total_labels) s = nth (-1) gt_labels (nth 0 gt_box_indices s) ∧
      nth zeroBox (get_gt_boxes_map gt_boxes gt_box_indices hp.total_neg_bboxes) s =
        nth zeroBox gt_boxes (nth 0 gt_box_indices s) ∧
      nth zeroDelta
          (List.zipWith (encodeDelta lg) roi_bboxes
            (get_gt_boxes_map gt_boxes gt_box_indices hp.total_neg_bboxes)) s =
        encodeDelta lg (nth zeroBox roi_bboxes s)
          (nth zeroBox gt_boxes (nth 0 gt_box_indices s))) := by
  have hgbm := get_gt_boxes_map_length gt_boxes gt_box_indices hp.total_neg_bboxes
  constructor
  · intro s hs1 hs2
    have hlab : nth (-1) (gt_labels_map gt_labels gt_box_indices hp.total_neg_bboxes
        hp.total_labels) s = (hp.total_labels : Int) - 1 := by
      unfold gt_labels_map
      rw [nth_append_right _ _ _ s (by simp only [List.length_map]; omega)]
      exact nth_replicate _ _ _ _ (by simp only [List.length_map]; omega)
    refine ⟨hlab, ?_⟩
    intro c hc
    simp only [RoIDelta_image]
    rw [nth_map_range [] _ (hp.total_pos_bboxes + hp.total_neg_bboxes) s hs2]
    have hdz : nth zeroDelta
        (List.zipWith (encodeDelta lg) roi_bboxes
          (get_gt_boxes_map gt_boxes gt_box_indices hp.total_neg_bboxes)) s = zeroDelta := by
      rw [nth_zipWith zeroBox zeroBox zeroDelta _ _ _ s (by omega) (by omega)]
      rw [hnegzero s hs1 hs2]
      have : nth zeroBox (get_gt_boxes_map gt_boxes gt_box_indices hp.total_neg_bboxes) s =
          zeroBox := by
        unfold get_gt_boxes_map
        rw [nth_append_right _ _ _ s (by simp only [List.length_map]; omega)]
        exact nth_replicate _ _ _ _ (by simp only [List.length_map]; omega)
      rw [this]
      exact encodeDelta_zero lg
    rw [hdz, nth_scatterRow zeroDelta zeroDelta _ hp.total_labels c hc]
    split <;> rfl
  · intro s hs
    refine ⟨?_, ?_, ?_⟩
    · unfold gt_labels_map
      rw [nth_append_left _ _ _ s (by simp only [List.length_map]; omega)]
      exact nth_map 0 (-1) _ _ s (by omega)
    · unfold get_gt_boxes_map
      rw [nth_append_left _ _ _ s (by simp only [List.length_map]; omega)]
      exact nth_map 0 zeroBox _ _ s (by omega)
    · rw [nth_zipWith zeroBox zeroBox zeroDelta _ _ _ s (by omega) (by omega)]
      have : nth zeroBox (get_gt_boxes_map gt_boxes gt_box_indices hp.total_neg_bboxes) s =
          nth zeroBox gt_boxes (nth 0 gt_box_indices s) := by
        unfold get_gt_boxes_map
        rw [nth_append_left _ _ _ s (by simp only [List.length_map]; omega)]
        exact nth_map 0 zeroBox _ _ s (by omega)
      rw [this]

/-- Witness for C3: slot 2 (negative) gets background label 4 and a zero
delta in the background column; slot 0 (positive) gathers ground-truth
box 0 and label 3. -/
theorem roiDelta_target_assignment_w :
    nth (-1) (gt_labels_map gtlW gtiW hpW.total_neg_bboxes hpW.total_labels) 2 =
      (hpW.total_labels : Int) - 1 ∧
    nth zeroDelta (nth [] (RoIDelta_image lgW hpW roiW gtbW2 gtlW gtiW).1 2) 4 = zeroDelta ∧
    nth (-1) (gt_labels_map gtlW gtiW hpW.total_neg_bboxes hpW.total_labels) 0 =
      nth (-1) gtlW (nth 0 gtiW 0) ∧
    nth zeroBox (get_gt_boxes_map gtbW2 gtiW hpW.total_neg_bboxes) 0 =
      nth zeroBox gtbW2 (nth 0 gtiW 0) := by
  have h := roiDelta_target_assignment lgW hpW roiW gtbW2 gtlW gtiW
    (by decide) (by decide)
    (by
      intro s h1 h2
      have h1a : 2 ≤ s := h1
      have h2a : s < 4 := h2
      interval_cases s <;> rfl)
  have hneg := h.1 2 (by decide) (by decide)
  have hpos := h.2 0 (by decide)
  exact ⟨hneg.1, hneg.2 4 (by decide), hpos.1, hpos.2.1⟩

theorem mem_valid_label_indices (frcnn_label_pred : List (List ℚ)) (total_labels i : Nat) :
    i ∈ valid_label_indices frcnn_label_pred total_labels ↔
      i < frcnn_label_pred.length ∧
        argmaxIdx (nth [] frcnn_label_pred i) ≠ total_labels - 1 := by
  unfold valid_label_indices
  constructor
  · intro hi
    rcases List.mem_filter.mp hi with ⟨hir, hip⟩
    have hilt : i < frcnn_label_pred.length := List.mem_range.mp hir
    have hne := of_decide_eq_true hip
    rw [pred_labels_map, nth_map [] 0 argmaxIdx _ i hilt] at hne
    exact ⟨hilt, hne⟩
  · rintro ⟨hilt, hne⟩
    refine List.mem_filter.mpr ⟨List.mem_range.mpr hilt, ?_⟩
    refine decide_eq_true ?_
    rw [pred_labels_map, nth_map [] 0 argmaxIdx _ i hilt]
    exact hne

/-- C4: the Inference Decoder keeps exactly the proposals whose arg-max
class differs from the background class `total_labels - 1`; when every
proposal is predicted background, the output is the well-shaped empty
detection set (zero-length proposal dimension under the singleton batch
dimension), not an error. -/
theorem decoder_background_filtering (ex : ℚ → ℚ) (roi_bboxes : List Box)
    (frcnn_delta_pred frcnn_label_pred : List (List ℚ)) (total_labels : Nat) :
    (∀ i, i ∈ valid_label_indices frcnn_label_pred total_labels ↔
      i < frcnn_label_pred.length ∧
        argmaxIdx (nth [] frcnn_label_pred i) ≠ total_labels - 1) ∧
    ((∀ i, i < frcnn_label_pred.length →
        argmaxIdx (nth [] frcnn_label_pred i) = total_labels - 1) →
      get_valid_predictions ex roi_bboxes frcnn_delta_pred frcnn_label_pred total_labels =
        ([[]], [[]])) := by
  refine ⟨mem_valid_label_indices frcnn_label_pred total_labels, ?_⟩
  intro hallbg
  have hnil : valid_label_indices frcnn_label_pred total_labels = [] := by
    rcases h : valid_label_indices frcnn_label_pred total_labels with _ | ⟨i, t⟩
    · rfl
    · have hi : i ∈ valid_label_indices frcnn_label_pred total_labels := by
        rw [h]; exact List.mem_cons_self i t
      rcases (mem_valid_label_indices frcnn_label_pred total_labels i).mp hi with ⟨hlt, hne⟩
      exact absurd (hallbg i hlt) hne
  simp [get_valid_predictions, valid_pred_bboxes, valid_labels_out, hnil]

/-- Witness for C4: on score rows that all predict background the decoder
returns the empty detection set; on `labelPredW` proposal 1 (arg-max class
0) is kept. -/
theorem decoder_background_filtering_w :
    get_valid_predictions exW roiW deltaPredW allBgPredW 5 = ([[]], [[]]) ∧
      (1 ∈ valid_label_indices labelPredW 5 ↔
        1 < labelPredW.length ∧ argmaxIdx (nth [] labelPredW 1) ≠ 5 - 1) := by
  have h1 := decoder_background_filtering exW roiW deltaPredW allBgPredW 5
  have h2 := decoder_background_filtering exW roiW deltaPredW labelPredW 5
  exact ⟨h1.2 (by decide), h2.1 1⟩

/-- C10: the Target Assigner labels every negative slot with the last
class index `total_labels - 1`, and the Inference Decoder keeps a proposal
exactly when its arg-max class differs from `total_labels - 1`; with at
least two labels the background index is non-zero, so class 0 is never
treated as background by either component. -/
theorem background_class_agreement (gt_labels : List Int) (gt_box_indices : List Nat)
    (frcnn_label_pred : List (List ℚ)) (total_neg total_labels s : Nat)
    (htl : 2 ≤ total_labels)
    (hs1 : gt_box_indices.length ≤ s) (hs2 : s < gt_box_indices.length + total_neg) :
    nth (-1) (gt_labels_map gt_labels gt_box_indices total_neg total_labels) s =
      (total_labels : Int) - 1 ∧
    (total_labels : Int) - 1 ≠ 0 ∧
    (∀ i, i ∈ valid_label_indices frcnn_label_pred total_labels ↔
      i < frcnn_label_pred.length ∧
        argmaxIdx (nth [] frcnn_label_pred i) ≠ total_labels - 1) ∧
    (∀ i, i < frcnn_label_pred.length → argmaxIdx (nth [] frcnn_label_pred i) = 0 →
      i ∈ valid_label_indices frcnn_label_pred total_labels) := by
  refine ⟨?_, by omega, mem_valid_label_indices frcnn_label_pred total_labels, ?_⟩
  · unfold gt_labels_map
    rw [nth_append_right _ _ _ s (by simp only [List.length_map]; omega)]
    exact nth_replicate _ _ _ _ (by simp only [List.length_map]; omega)
  · intro i hlt hzero
    refine (mem_valid_label_indices frcnn_label_pred total_labels i).mpr ⟨hlt, ?_⟩
    omega

/-- Witness for C10: negative slot 3 is labelled 4 = 5 - 1, the background
index is non-zero, and proposal 1 of `labelPredW` (arg-max 0) survives. -/
theorem background_class_agreement_w :
    nth (-1) (gt_labels_map gtlW gtiW 2 5) 3 = (5 : Int) - 1 ∧
    (5 : Int) - 1 ≠ 0 ∧
    1 ∈ valid_label_indices labelPredW 5 := by
  have h := background_class_agreement gtlW gtiW labelPredW 2 5 3
    (by decide) (by decide) (by decide)
  exact ⟨h.1, h.2.1, h.2.2.2 1 (by decide) (by decide)⟩

theorem scatterRowN_length {α : Type _} (zero v : α) (lab total : Nat) :
    (scatterRowN zero v lab total).length = total := by
  simp [scatterRowN]

theorem nth_valid_pred_bboxes (ex : ℚ → ℚ) (roi_bboxes : List Box)
    (frcnn_delta_pred frcnn_label_pred : List (List ℚ)) (total_labels j : Nat)
    (hj : j < (valid_label_indices frcnn_label_pred total_labels).length) :
    nth [] (valid_pred_bboxes ex roi_bboxes frcnn_delta_pred frcnn_label_pred total_labels) j =
      List.zipWith (decodeBox ex)
        (scatterRowN zeroBox
          (nth zeroBox roi_bboxes (decoderValidIdx frcnn_label_pred total_labels j))
          (decoderPredClass frcnn_label_pred total_labels j) total_labels)
        (chunk4 (nth [] frcnn_delta_pred (decoderValidIdx frcnn_label_pred total_labels j))) := by
  have hmem := nth_mem 0 (valid_label_indices frcnn_label_pred total_labels) j hj
  have hlt : nth 0 (valid_label_indices frcnn_label_pred total_labels) j <
      frcnn_label_pred.length :=
    ((mem_valid_label_indices _ _ _).mp hmem).1
  simp only [valid_pred_bboxes]
  rw [nth_map_range [] _ (valid_label_indices frcnn_label_pred total_labels).length j hj]
  try simp only []
  rw [nth_map_range [] _ (valid_label_indices frcnn_label_pred total_labels).length j hj]
  try simp only []
  rw [nth_map 0 [] _ _ j hj, nth_map 0 zeroBox _ _ j hj, nth_map 0 0 _ _ j hj]
  simp only [pred_labels_map]
  rw [nth_map [] 0 argmaxIdx _ _ hlt]
  simp only [decoderValidIdx, decoderPredClass]

/-- C6: for each survivor of background filtering, the decoded output row
holds, at the survivor's arg-max class column, the decode of the
survivor's own proposal box against that class's delta slice, and the zero
box at every other class column; the returned score rows are the
survivors' full, unmodified input score rows. -/
theorem decoder_per_class_decoding (ex : ℚ → ℚ) (roi_bboxes : List Box)
    (frcnn_delta_pred frcnn_label_pred : List (List ℚ)) (total_labels j : Nat)
    (hj : j < (valid_label_indices frcnn_label_pred total_labels).length)
    (hdrow : (nth [] frcnn_delta_pred
      (decoderValidIdx frcnn_label_pred total_labels j)).length = 4 * total_labels)
    (hsrow : (nth [] frcnn_label_pred
      (decoderValidIdx frcnn_label_pred total_labels j)).length = total_labels)
    (htl : 0 < total_labels) :
    nth [] (nth [] (get_valid_predictions ex roi_bboxes frcnn_delta_pred frcnn_label_pred
        total_labels).2 0) j =
      nth [] frcnn_label_pred (decoderValidIdx frcnn_label_pred total_labels j) ∧
    nth zeroBox
        (nth [] (nth [] (get_valid_predictions ex roi_bboxes frcnn_delta_pred
          frcnn_label_pred total_labels).1 0) j)
        (decoderPredClass frcnn_label_pred total_labels j) =
      decodeBox ex (nth zeroBox roi_bboxes (decoderValidIdx frcnn_label_pred total_labels j))
        (nth zeroDelta
          (chunk4 (nth [] frcnn_delta_pred (decoderValidIdx frcnn_label_pred total_labels j)))
          (decoderPredClass frcnn_label_pred total_labels j)) ∧
    (∀ c, c < total_labels → c ≠ decoderPredClass frcnn_label_pred total_labels j →
      nth zeroBox
        (nth [] (nth [] (get_valid_predictions ex roi_bboxes frcnn_delta_pred
          frcnn_label_pred total_labels).1 0) j) c = zeroBox) := by
  have hrow := nth_valid_pred_bboxes ex roi_bboxes frcnn_delta_pred frcnn_label_pred
    total_labels j hj
  have hplt : decoderPredClass frcnn_label_pred total_labels j < total_labels := by
    unfold decoderPredClass
    have := argmaxIdx_lt (nth [] frcnn_label_pred
      (decoderValidIdx frcnn_label_pred total_labels j)) (by rw [hsrow]; exact htl)
    rwa [hsrow] at this
  have hchunk : (chunk4 (nth [] frcnn_delta_pred
      (decoderValidIdx frcnn_label_pred total_labels j))).length = total_labels := by
    rw [chunk4_length, hdrow]
    omega
  refine ⟨?_, ?_, ?_⟩
  · show nth [] (valid_labels_out frcnn_label_pred total_labels) j = _
    unfold valid_labels_out decoderValidIdx
    exact nth_map 0 [] _ _ j hj
  · show nth zeroBox
        (nth [] (valid_pred_bboxes ex roi_bboxes frcnn_delta_pred frcnn_label_pred
          total_labels) j) (decoderPredClass frcnn_label_pred total_labels j) = _
    rw [hrow]
    rw [nth_zipWith zeroBox zeroDelta zeroBox _ _ _ _
      (by rw [scatterRowN_length]; exact hplt) (by rw [hchunk]; exact hplt)]
    rw [nth_scatterRowN _ _ _ _ _ hplt, if_pos rfl]
  · intro c hc hcne
    show nth zeroBox
        (nth [] (valid_pred_bboxes ex roi_bboxes frcnn_delta_pred frcnn_label_pred
          total_labels) j) c = zeroBox
    rw [hrow]
    rw [nth_zipWith zeroBox zeroDelta zeroBox _ _ _ _
      (by rw [scatterRowN_length]; exact hc) (by rw [hchunk]; exact hc)]
    rw [nth_scatterRowN _ _ _ _ _ hc, if_neg hcne]
    exact decodeBox_zero ex _

/-- Witness for C6: on `labelPredW` survivor 0 is proposal 1; its score
row is returned whole and its column-2 decoded box (class 2 is not its
predicted class 0) is the zero box. -/
theorem decoder_per_class_decoding_w :
    nth [] (nth [] (get_valid_predictions exW roiW deltaPredW labelPredW 5).2 0) 0 =
      nth [] labelPredW (decoderValidIdx labelPredW 5 0) ∧
    nth zeroBox (nth [] (nth [] (get_valid_predictions exW roiW deltaPredW
      labelPredW 5).1 0) 0) 2 = zeroBox := by
  have h := decoder_per_class_decoding exW roiW deltaPredW labelPredW 5 0
    (by decide) (by decide) (by decide) (by decide)
  exact ⟨h.1, h.2.2 2 (by decide) (by decide)⟩

/-- C5: RoI pooling preserves batch isolation: the pooled value for
proposal `i` of image `b`, computed through the single flat batched
crop-and-resize, equals cropping the same box against image `b`'s feature
map alone, and is unchanged under any replacement of the other images'
feature maps. -/
theorem roiPooling_batch_isolation {φ π : Type _} (cr : φ → Box → π) (dflt : φ) (dp : π)
    (feature_map : List φ) (roi_bboxes : List (List Box)) (total_bboxes b i : Nat)
    (hrect : ∀ row ∈ roi_bboxes, row.length = total_bboxes)
    (hb : b < roi_bboxes.length) (hi : i < total_bboxes) :
    nth dp (nth [] (RoIPooling_call cr dflt feature_map roi_bboxes total_bboxes) b) i =
      cr (nth dflt feature_map b) (nth zeroBox (nth [] roi_bboxes b) i) ∧
    (∀ feature_map2 : List φ, nth dflt feature_map2 b = nth dflt feature_map b →
      nth dp (nth [] (RoIPooling_call cr dflt feature_map2 roi_bboxes total_bboxes) b) i =
        nth dp (nth [] (RoIPooling_call cr dflt feature_map roi_bboxes total_bboxes) b) i) := by
  have key : ∀ fm : List φ,
      nth dp (nth [] (RoIPooling_call cr dflt fm roi_bboxes total_bboxes) b) i =
        cr (nth dflt fm b) (nth zeroBox (nth [] roi_bboxes b) i) := by
    intro fm
    have hbt : b * total_bboxes + i < roi_bboxes.length * total_bboxes := by
      have h2 : (b + 1) * total_bboxes ≤ roi_bboxes.length * total_bboxes :=
        Nat.mul_le_mul_right _ hb
      have h3 : b * total_bboxes + i < (b + 1) * total_bboxes := by
        rw [Nat.succ_mul]
        omega
      omega
    have hflat : roi_bboxes.flatten.length = roi_bboxes.length * total_bboxes :=
      length_flatten_rect roi_bboxes total_bboxes hrect
    have htiled : (get_tiled_indices roi_bboxes.length total_bboxes).length =
        roi_bboxes.length * total_bboxes := by
      unfold get_tiled_indices
      rw [length_flatten_rect _ total_bboxes]
      · simp
      · intro r hr
        rcases List.mem_map.mp hr with ⟨x, _, rfl⟩
        simp
    simp only [RoIPooling_call]
    rw [nth_map_range [] _ roi_bboxes.length b hb]
    try simp only []
    rw [nth_take dp _ total_bboxes i hi, nth_drop]
    simp only [crop_and_resize]
    rw [nth_map (zeroBox, (0 : Nat)) dp _ _ (b * total_bboxes + i)
      (by rw [List.length_zip, hflat, htiled]; omega)]
    rw [nth_zip zeroBox 0 _ _ (b * total_bboxes + i) (by rw [hflat]; exact hbt)
      (by rw [htiled]; exact hbt)]
    try simp only []
    rw [nth_flatten zeroBox roi_bboxes total_bboxes b i hrect hb hi,
      get_tiled_indices_spec roi_bboxes.length total_bboxes b i hb hi]
  refine ⟨key feature_map, ?_⟩
  intro fm2 heq
  rw [key fm2, key feature_map, heq]

/-- Witness for C5: pooling image 1's first proposal through the batched
op reads feature map 1, and replacing image 0's feature map leaves it
unchanged. -/
theorem roiPooling_batch_isolation_w :
    nth 0 (nth [] (RoIPooling_call crW 0 fmW roiPW 2) 1) 0 =
      crW (nth 0 fmW 1) (nth zeroBox (nth [] roiPW 1) 0) ∧
    nth 0 (nth [] (RoIPooling_call crW 0 fm2W roiPW 2) 1) 0 =
      nth 0 (nth [] (RoIPooling_call crW 0 fmW roiPW 2) 1) 0 := by
  have h := roiPooling_batch_isolation crW 0 0 fmW roiPW 2 1 0
    (by decide) (by decide) (by decide)
  exact ⟨h.1, h.2 fm2W (by decide)⟩

end FasterRCNN
